import Mathlib

/-!
Shallow embedding of `src/gen/logger.cpp` (namespace `Logger`): a process-wide
console logger with an enable/disable flag, an indentation prefix string, a
printf-style print/println pair gated by the flag, a stream accessor that
redirects to a null sink when disabled, and an always-on attention printer.

The process-wide state (`_enabled`, `indent_str`) is modelled as an explicit
`LoggerState` record passed to each operation; text written to standard output
is modelled as the `List Char` returned by each printing operation; the fatal
assertion inside `undent` is modelled by returning `none`.
-/

namespace Logger

/-- One indentation token: the two characters of the literal appended by
`indent()`, the string `"* "` from the source. -/
def indentTok : List Char := ['*', ' ']

/-- The process-wide logger state of `logger.cpp`: the static `_enabled` flag
and the static `indent_str` string, modelled as a list of characters. -/
structure LoggerState where
  _enabled : Bool
  indent_str : List Char
  deriving Repr, DecidableEq

/-- Initial process state: `_enabled = false` and `indent_str` empty, as at
static initialization in the source. -/
def initState : LoggerState := ⟨false, []⟩

/-- `indent()`: if enabled, appends `"* "` to `indent_str`; no-op otherwise. -/
def indent (s : LoggerState) : LoggerState :=
  if s._enabled then { s with indent_str := s.indent_str ++ indentTok } else s

/-- `undent()`: if enabled, `assert(!indent_str.empty())` — the failing
assertion (process abort) is modelled as `none` — then
`indent_str.resize(indent_str.size()-2)`, dropping the last two characters;
no-op when disabled. -/
def undent (s : LoggerState) : Option LoggerState :=
  if s._enabled then
    if s.indent_str = [] then none
    else some { s with indent_str := s.indent_str.take (s.indent_str.length - 2) }
  else some s

/-- `enable()`: sets `_enabled` to true. -/
def enable (s : LoggerState) : LoggerState := { s with _enabled := true }

/-- `disable()`: sets `_enabled` to false. -/
def disable (s : LoggerState) : LoggerState := { s with _enabled := false }

/-- `enabled()`: returns the `_enabled` flag. -/
def enabled (s : LoggerState) : Bool := s._enabled

/-- The C `vprintf` formatting used by the logger, restricted to the directives
exercised in this development: literal characters are copied through, and the
`%d` directive consumes one integer argument and prints its decimal form. -/
def vformat : List Char → List Int → List Char
  | [], _ => []
  | '%' :: 'd' :: rest, a :: args => (toString a).toList ++ vformat rest args
  | c :: rest, args => c :: vformat rest args

/-- `println(fmt, ...)`: if enabled, prints `indent_str` (it contains no `%`,
so `printf` emits it literally), then the formatted message, then a newline;
the returned list is the text written to standard output. No output when
disabled. -/
def println (s : LoggerState) (fmt : List Char) (args : List Int) : List Char :=
  if s._enabled then s.indent_str ++ vformat fmt args ++ ['\n'] else []

/-- `print(fmt, ...)`: like `println` but without the trailing newline. -/
def print (s : LoggerState) (fmt : List Char) (args : List Int) : List Char :=
  if s._enabled then s.indent_str ++ vformat fmt args else []

/-- The two write destinations a `cout()` handle can be bound to: the process
standard output (`std::cout`) or the null sink (`null_out`, `/dev/null`). -/
inductive Sink where
  | stdout
  | nullSink
  deriving Repr, DecidableEq

/-- `cout()`: the sink the returned stream handle is bound to, paired with the
text this call itself writes to standard output (`std::cout << indent_str`
when enabled; nothing when disabled). -/
def cout (s : LoggerState) : Sink × List Char :=
  if s._enabled then (Sink.stdout, s.indent_str) else (Sink.nullSink, [])

/-- Observable standard-output text of writing `msg` through a stream handle:
a handle on standard output shows the text, the null sink discards it. -/
def writeThrough : Sink → List Char → List Char
  | Sink.stdout, msg => msg
  | Sink.nullSink, _ => []

/-- The banner `attention` prints before the formatted message. -/
def attnBanner : List Char := "***ATTENTION*** ".toList

/-- `attention(fmt, ...)`: prints the banner, the formatted message, and a
newline to standard output, ignoring the logger state entirely. -/
def attention (_s : LoggerState) (fmt : List Char) (args : List Int) : List Char :=
  attnBanner ++ vformat fmt args ++ ['\n']

/-- States reachable from the initial state through the public mutators:
`enable()`, `disable()`, `indent()` and non-aborting `undent()` calls. -/
inductive Reachable : LoggerState → Prop where
  | init : Reachable initState
  | stepEnable {s} : Reachable s → Reachable (enable s)
  | stepDisable {s} : Reachable s → Reachable (disable s)
  | stepIndent {s} : Reachable s → Reachable (indent s)
  | stepUndent {s s'} : Reachable s → undent s = some s' → Reachable s'

/-- The indent prefix produced by `n` nested `indent()` calls from an empty
prefix: `n` copies of the token. -/
def tokN : Nat → List Char
  | 0 => []
  | n + 1 => indentTok ++ tokN n

/-- `n` successive `indent()` calls. -/
def indentN : Nat → LoggerState → LoggerState
  | 0, s => s
  | n + 1, s => indentN n (indent s)

/-- `n` successive `undent()` calls, aborting as soon as one aborts. -/
def undentN : Nat → LoggerState → Option LoggerState
  | 0, s => some s
  | n + 1, s => (undent s).bind (undentN n)

theorem tokN_snoc (n : Nat) : tokN n ++ indentTok = tokN (n + 1) := by
  induction n with
  | zero => rfl
  | succ m ih =>
    calc tokN (m + 1) ++ indentTok = indentTok ++ (tokN m ++ indentTok) := by
          simp [tokN]
      _ = indentTok ++ tokN (m + 1) := by rw [ih]
      _ = tokN (m + 2) := rfl

theorem tokN_length (n : Nat) : (tokN n).length = 2 * n := by
  induction n with
  | zero => rfl
  | succ m ih => simp [tokN, indentTok, ih]; ring

theorem indent_true (p : List Char) :
    indent ⟨true, p⟩ = ⟨true, p ++ indentTok⟩ := by
  simp [indent]

theorem undent_snoc (p : List Char) :
    undent ⟨true, p ++ indentTok⟩ = some ⟨true, p⟩ := by
  simp [undent, indentTok, List.take_left]

theorem undent_tokN_succ (n : Nat) :
    undent ⟨true, tokN (n + 1)⟩ = some ⟨true, tokN n⟩ := by
  rw [← tokN_snoc]
  exact undent_snoc (tokN n)

theorem indentN_true (n : Nat) (p : List Char) :
    indentN n ⟨true, p⟩ = ⟨true, p ++ tokN n⟩ := by
  induction n generalizing p with
  | zero => simp [indentN, tokN]
  | succ m ih =>
    calc indentN (m + 1) ⟨true, p⟩ = indentN m ⟨true, p ++ indentTok⟩ := by
          rw [indentN, indent_true]
      _ = ⟨true, p ++ indentTok ++ tokN m⟩ := ih (p ++ indentTok)
      _ = ⟨true, p ++ tokN (m + 1)⟩ := by simp [tokN, List.append_assoc]

theorem undentN_tokN (n : Nat) :
    undentN n ⟨true, tokN n⟩ = some ⟨true, []⟩ := by
  induction n with
  | zero => rfl
  | succ m ih =>
    calc undentN (m + 1) ⟨true, tokN (m + 1)⟩
        = (undent ⟨true, tokN (m + 1)⟩).bind (undentN m) := rfl
      _ = (some (⟨true, tokN m⟩ : LoggerState)).bind (undentN m) := by
          rw [undent_tokN_succ]
      _ = some ⟨true, []⟩ := ih

/-- Every reachable state's indent prefix is a whole number of `"* "` tokens. -/
theorem reachable_tokN {s : LoggerState} (h : Reachable s) :
    ∃ n, s.indent_str = tokN n := by
  induction h with
  | init => exact ⟨0, rfl⟩
  | stepEnable _ ih =>
    obtain ⟨n, hn⟩ := ih
    exact ⟨n, by simpa [enable] using hn⟩
  | stepDisable _ ih =>
    obtain ⟨n, hn⟩ := ih
    exact ⟨n, by simpa [disable] using hn⟩
  | stepIndent _ ih =>
    obtain ⟨n, hn⟩ := ih
    rename_i s _
    by_cases he : s._enabled
    · refine ⟨n + 1, ?_⟩
      have : (indent s).indent_str = s.indent_str ++ indentTok := by
        simp [indent, he]
      rw [this, hn, tokN_snoc]
    · exact ⟨n, by simp [indent, he, hn]⟩
  | stepUndent _ heq ih =>
    obtain ⟨n, hn⟩ := ih
    rename_i s s' _
    obtain ⟨e, p⟩ := s
    have hp : p = tokN n := hn
    subst hp
    cases e with
    | false =>
      have : s' = ⟨false, tokN n⟩ := by
        have := heq
        simp [undent] at this
        exact this.symm
      exact ⟨n, by rw [this]⟩
    | true =>
      cases n with
      | zero => simp [undent, tokN] at heq
      | succ m =>
        rw [undent_tokN_succ] at heq
        exact ⟨m, by rw [← Option.some.inj heq]⟩

/-- C1: on every reachable state, `undent()` aborts (fatal assertion, modelled
by `none`) exactly when logging is enabled and the indent prefix is empty; in
every other reachable state it returns normally. -/
theorem undent_abort_iff (s : LoggerState) (_h : Reachable s) :
    undent s = none ↔ s._enabled = true ∧ s.indent_str = [] := by
  obtain ⟨e, p⟩ := s
  cases e <;> cases p <;> simp [undent]

theorem undent_abort_iff_witness :
    Reachable (enable initState) ∧
      (undent (enable initState) = none ↔
        (enable initState)._enabled = true ∧ (enable initState).indent_str = []) :=
  ⟨Reachable.stepEnable Reachable.init,
   undent_abort_iff (enable initState) (Reachable.stepEnable Reachable.init)⟩

/-- C2: when logging is disabled, `println`, `print` and writes through the
handle returned by `cout()` produce no standard-output text, `indent()` and
`undent()` leave the state unchanged, and `attention` still produces output. -/
theorem disabled_silent (s : LoggerState) (fmt : List Char) (args : List Int)
    (msg : List Char) (h : s._enabled = false) :
    println s fmt args = [] ∧ print s fmt args = [] ∧
      cout s = (Sink.nullSink, []) ∧ writeThrough (cout s).1 msg = [] ∧
      indent s = s ∧ undent s = some s ∧ attention s fmt args ≠ [] := by
  refine ⟨?_, ?_, ?_, ?_, ?_, ?_, ?_⟩ <;>
    simp [println, print, cout, writeThrough, indent, undent, attention, h]

theorem disabled_silent_witness :
    initState._enabled = false ∧
      (println initState "x".toList [] = [] ∧ print initState "x".toList [] = [] ∧
        cout initState = (Sink.nullSink, []) ∧
        writeThrough (cout initState).1 ['a'] = [] ∧
        indent initState = initState ∧ undent initState = some initState ∧
        attention initState "x".toList [] ≠ []) :=
  ⟨rfl, disabled_silent initState "x".toList [] ['a'] rfl⟩

/-- C3: in every state — hence regardless of any prior `enable()`/`disable()`
calls — `attention` writes exactly the banner, the formatted message and a
newline; in particular `attention("disk full")` always prints
`***ATTENTION*** disk full` followed by a newline. -/
theorem attention_always_prints (s t : LoggerState) (fmt : List Char)
    (args : List Int) :
    attention s fmt args = attnBanner ++ vformat fmt args ++ ['\n'] ∧
      attention s fmt args = attention t fmt args ∧
      attention s "disk full".toList [] = "***ATTENTION*** disk full\n".toList :=
  ⟨rfl, rfl, by
    show attnBanner ++ vformat "disk full".toList [] ++ ['\n'] =
      "***ATTENTION*** disk full\n".toList
    decide⟩

/-- C4: from the initial state, `enable()`, then `N` `indent()` calls, then `N`
`undent()` calls, then `disable()` succeeds without aborting and returns the
logger to the initial state, for every `N`. -/
theorem roundTrip (N : Nat) :
    (undentN N (indentN N (enable initState))).map disable = some initState := by
  have h1 : indentN N (enable initState) = ⟨true, tokN N⟩ := by
    have h := indentN_true N []
    simpa [enable, initState] using h
  rw [h1, undentN_tokN]
  rfl

/-- C5: while enabled, a matched `indent()`/`undent()` pair returns the state
(hence the indent prefix) to its value before the pair, and one unmatched
`indent()` grows the prefix by exactly 2 characters. -/
theorem indent_undent_pair (s : LoggerState) (h : s._enabled = true) :
    undent (indent s) = some s ∧
      (indent s).indent_str.length = s.indent_str.length + 2 := by
  obtain ⟨e, p⟩ := s
  have he : e = true := h
  subst he
  exact ⟨by rw [indent_true]; exact undent_snoc p, by simp [indent, indentTok]⟩

theorem indent_undent_pair_witness :
    (enable initState)._enabled = true ∧
      (undent (indent (enable initState)) = some (enable initState) ∧
        (indent (enable initState)).indent_str.length =
          (enable initState).indent_str.length + 2) :=
  ⟨rfl, indent_undent_pair (enable initState) rfl⟩

/-- C6: when enabled on an empty prefix, `println("value=%d", 42)` writes
exactly `value=42` plus a newline; after one `indent()` it writes exactly
`* value=42` plus a newline. -/
theorem println_examples :
    println (enable initState) "value=%d".toList [42] = "value=42\n".toList ∧
      println (indent (enable initState)) "value=%d".toList [42] =
        "* value=42\n".toList := by
  decide

/-- C7: in every state reachable through `enable`, `disable`, `indent` and
non-aborting `undent` calls, the indent prefix length is `2 * n` for some `n`:
a non-negative even multiple of the 2-character token length. -/
theorem indent_str_length_even (s : LoggerState) (h : Reachable s) :
    ∃ n, s.indent_str.length = 2 * n := by
  obtain ⟨n, hn⟩ := reachable_tokN h
  exact ⟨n, by rw [hn, tokN_length]⟩

theorem indent_str_length_even_witness :
    Reachable (indent (enable initState)) ∧
      ∃ n, (indent (enable initState)).indent_str.length = 2 * n :=
  ⟨Reachable.stepIndent (Reachable.stepEnable Reachable.init),
   indent_str_length_even (indent (enable initState))
     (Reachable.stepIndent (Reachable.stepEnable Reachable.init))⟩

/-- C8: `cout()` returns a handle on standard output after writing the current
indent prefix when enabled, a handle on the null sink (which discards every
write) when disabled, and which sink is chosen depends only on the enabled
flag at the time of the call. -/
theorem cout_spec (s : LoggerState) (msg : List Char) :
    (s._enabled = true → cout s = (Sink.stdout, s.indent_str)) ∧
      (s._enabled = false → cout s = (Sink.nullSink, [])) ∧
      writeThrough Sink.nullSink msg = [] ∧
      (∀ t : LoggerState, s._enabled = t._enabled → (cout s).1 = (cout t).1) := by
  refine ⟨fun h => by simp [cout, h], fun h => by simp [cout, h], rfl,
    fun t h => ?_⟩
  by_cases he : s._enabled = true <;> simp [cout, ← h, he]

theorem cout_spec_witness :
    cout (enable initState) = (Sink.stdout, (enable initState).indent_str) ∧
      cout initState = (Sink.nullSink, []) ∧
      writeThrough Sink.nullSink ['a'] = [] ∧
      (cout (enable initState)).1 = (cout (enable (enable initState))).1 :=
  ⟨(cout_spec (enable initState) ['a']).1 rfl,
   (cout_spec initState ['a']).2.1 rfl,
   (cout_spec initState ['a']).2.2.1,
   (cout_spec (enable initState) ['a']).2.2.2 (enable (enable initState)) rfl⟩

/-- C9: `enable()` and `disable()` change only the enabled flag and never the
indent prefix; in particular `disable()` then `enable()` resumes at the same
nesting depth. -/
theorem enable_disable_frame (s : LoggerState) :
    (enable s).indent_str = s.indent_str ∧
      (disable s).indent_str = s.indent_str ∧
      (enable s)._enabled = true ∧ (disable s)._enabled = false ∧
      (enable (disable s)).indent_str = s.indent_str := by
  refine ⟨?_, ?_, ?_, ?_, ?_⟩ <;> simp [enable, disable]

/-- C10: even when logging is enabled with a non-empty indent prefix, the line
`attention` writes starts with the 16-character banner and does not start with
an indent token. -/
theorem attention_not_indented (s : LoggerState) (fmt : List Char)
    (args : List Int) (_h1 : s._enabled = true) (_h2 : s.indent_str ≠ []) :
    (attention s fmt args).take 16 = attnBanner ∧
      (attention s fmt args).take 2 ≠ indentTok := by
  constructor
  · rfl
  · have ht : (attention s fmt args).take 2 = ['*', '*'] := rfl
    rw [ht]
    decide

theorem attention_not_indented_witness :
    (indent (enable initState))._enabled = true ∧
      (indent (enable initState)).indent_str ≠ [] ∧
      ((attention (indent (enable initState)) "x".toList []).take 16 = attnBanner ∧
        (attention (indent (enable initState)) "x".toList []).take 2 ≠ indentTok) :=
  ⟨rfl, by decide,
   attention_not_indented (indent (enable initState)) "x".toList [] rfl (by decide)⟩

end Logger

